import Mathlib

/-
Verification of the test-support helper packages of the go-playground
repository: the failpoint configuration helpers, the event monitors, the
container bootstrap helpers, the timeutil conversions, and the unified
test-file entity merging. Each Go function used by a claim is embedded as
an executable Lean definition; machine integers are modelled as Int with
explicit two's-complement wrapping, Go maps as association lists or
explicit option fields, and fallible code as Except/Option.
-/

namespace failpoint

/-- Go "any" values that can appear as entries of a fail-point mode map.
The int, int32, int64 and float64 constructors carry the integer value the
Go conversion to int32 would start from (for float64 the truncated
integral value); other dynamic types are represented by gstring and
gother, which the switch in interfaceToInt32 does not accept. -/
inductive GoValue where
  | gint (n : Int)
  | gint32 (n : Int)
  | gint64 (n : Int)
  | gfloat64 (n : Int)
  | gstring (s : String)
  | gother
deriving DecidableEq, Repr

/-- Two's-complement wrap of an integer into the int32 range, the effect of
a Go conversion to int32. -/
def wrapInt32 (n : Int) : Int :=
  (n + 2 ^ 31) % 2 ^ 32 - 2 ^ 31

/-- interfaceToInt32 from the failpoint package: a type switch accepting
int, int32, int64 and float64, and failing on every other dynamic type. -/
def interfaceToInt32 : GoValue → Except String Int
  | .gint n => .ok (wrapInt32 n)
  | .gint32 n => .ok n
  | .gint64 n => .ok (wrapInt32 n)
  | .gfloat64 n => .ok (wrapInt32 n)
  | .gstring _ => .error "type string cannot be converted to int32"
  | .gother => .error "type cannot be converted to int32"

/-- Mode from the failpoint package: times and skip are int32 fields. -/
structure Mode where
  times : Int
  skip : Int
deriving DecidableEq, Repr

/-- The "times" and "skip" entries of a fail-point mode map of Go type
map[string]any. Enable reads and writes only these two keys, so the other
entries of the map are irrelevant to its behavior and are not modelled. -/
structure ModeMap where
  times : Option GoValue
  skip : Option GoValue
deriving DecidableEq, Repr

/-- FailPoint.Mode may hold a string, a Mode struct, or a map. -/
inductive FPMode where
  | str (s : String)
  | mode (m : Mode)
  | map (m : ModeMap)
deriving DecidableEq, Repr

/-- WriteConcernError from the failpoint package. The bson.Raw errInfo
payload is modelled as its byte list. -/
structure WriteConcernError where
  code : Int
  name : String
  errmsg : String
  errorLabels : Option (List String)
  errInfo : List Nat
deriving DecidableEq, Repr

/-- Data from the failpoint package. -/
structure Data where
  failCommands : List String
  closeConnection : Bool
  errorCode : Int
  failBeforeCommitExceptionCode : Int
  errorLabels : Option (List String)
  writeConcernError : Option WriteConcernError
  blockConnection : Bool
  blockTimeMS : Int
  appName : String
deriving DecidableEq, Repr

/-- The Go zero value of the Data struct. -/
def Data.zero : Data :=
  { failCommands := []
    closeConnection := false
    errorCode := 0
    failBeforeCommitExceptionCode := 0
    errorLabels := none
    writeConcernError := none
    blockConnection := false
    blockTimeMS := 0
    appName := "" }

/-- FailPoint from the failpoint package. -/
structure FailPoint where
  configureFailPoint : String
  mode : FPMode
  data : Data
deriving DecidableEq, Repr

/-- ModeAlwaysOn constant from the failpoint package. -/
def ModeAlwaysOn : String := "alwaysOn"

/-- ModeOff constant from the failpoint package. -/
def ModeOff : String := "off"

/-- NewSingleErr from the failpoint package: a failCommand fail point that
fails the named command once with the given error code. -/
def NewSingleErr (cmdName : String) (errCode : Int) : FailPoint :=
  { configureFailPoint := "failCommand"
    mode := .mode { times := 1, skip := 0 }
    data := { Data.zero with failCommands := [cmdName], errorCode := errCode } }

/-- The mode-map normalization step at the top of Enable: a single err
variable is assigned by the "times" branch and then reassigned by the
"skip" branch when that entry is present; each present entry is written
back as an int32, the Go zero value 0 when its conversion failed. The
returned option is the final value of err checked by require.NoError. -/
def enableNormalizeMode (m : ModeMap) : ModeMap × Option String :=
  let st1 : ModeMap × Option String :=
    match m.times with
    | none => (m, none)
    | some v =>
      match interfaceToInt32 v with
      | .ok n => ({ m with times := some (.gint32 n) }, none)
      | .error e => ({ m with times := some (.gint32 0) }, some e)
  match st1.1.skip with
  | none => st1
  | some v =>
    match interfaceToInt32 v with
    | .ok n => ({ st1.1 with skip := some (.gint32 n) }, none)
    | .error e => ({ st1.1 with skip := some (.gint32 0) }, some e)

/-- Enable fails the test (require.NoError) exactly when the final err of
the normalization step is non-nil. -/
def enableRejects (m : ModeMap) : Bool :=
  (enableNormalizeMode m).2.isSome

/-- Whether the conversion of a value to int32 fails. -/
def convFails (v : GoValue) : Bool :=
  match interfaceToInt32 v with
  | .ok _ => false
  | .error _ => true

/-- The int32 value a present entry is replaced with: the conversion
result, or 0 when the conversion failed. -/
def convValue (v : GoValue) : Int :=
  match interfaceToInt32 v with
  | .ok n => n
  | .error _ => 0

/-- The conversion failure Enable actually reports: that of the last
present entry among "times" and "skip". -/
def lastPresentConvFails (m : ModeMap) : Bool :=
  match m.skip with
  | some v => convFails v
  | none =>
    match m.times with
    | some v => convFails v
    | none => false

/-- The command run by the TeardownFunc returned by Enable: the same
ConfigureFailPoint with Mode "off" and a zero-valued Data. -/
def teardownCommand (fp : FailPoint) : FailPoint :=
  { configureFailPoint := fp.configureFailPoint
    mode := .str ModeOff
    data := Data.zero }

end failpoint

namespace failpoint

/-- C1: NewSingleErr returns a FailPoint whose ConfigureFailPoint is
"failCommand", whose Mode is the Mode struct with Times 1 and Skip 0, and
whose Data has FailCommands equal to the one-element list of the command
name and ErrorCode equal to the given code, every other Data field being
the Go zero value. -/
theorem newSingleErr_spec (cmdName : String) (errCode : Int) :
    (NewSingleErr cmdName errCode).configureFailPoint = "failCommand" ∧
    (NewSingleErr cmdName errCode).mode = .mode { times := 1, skip := 0 } ∧
    (NewSingleErr cmdName errCode).data.failCommands = [cmdName] ∧
    (NewSingleErr cmdName errCode).data.errorCode = errCode ∧
    (NewSingleErr cmdName errCode).data.closeConnection = false ∧
    (NewSingleErr cmdName errCode).data.failBeforeCommitExceptionCode = 0 ∧
    (NewSingleErr cmdName errCode).data.errorLabels = none ∧
    (NewSingleErr cmdName errCode).data.writeConcernError = none ∧
    (NewSingleErr cmdName errCode).data.blockConnection = false ∧
    (NewSingleErr cmdName errCode).data.blockTimeMS = 0 ∧
    (NewSingleErr cmdName errCode).data.appName = "" := by
  refine ⟨rfl, rfl, rfl, rfl, rfl, rfl, rfl, rfl, rfl, rfl, rfl⟩

/-- A mode map whose "times" entry has an unconvertible dynamic type while
its "skip" entry is a plain int. -/
def timesBadSkipGood : ModeMap :=
  { times := some (.gstring "one"), skip := some (.gint 1) }

/-- C2 counterexample: a map whose "times" value is unconvertible is NOT
always rejected — when a convertible "skip" entry is also present, the
error from converting "times" is overwritten and Enable does not fail the
test. -/
theorem enable_times_unconvertible_accepted :
    enableRejects timesBadSkipGood = false := by
  rfl

/-- C2 (amended): every present "times" or "skip" entry is replaced by an
int32 (0 when its conversion failed) before the command is run, but the
conversion failure Enable reports is only that of the last present entry
among "times" and "skip" — the "skip" entry if present, otherwise the
"times" entry — so an unconvertible "times" value is rejected only when no
"skip" entry is present or the "skip" entry is itself unconvertible. -/
theorem enableNormalizeMode_spec (m : ModeMap) :
    (enableNormalizeMode m).1.times = m.times.map (fun v => .gint32 (convValue v)) ∧
    (enableNormalizeMode m).1.skip = m.skip.map (fun v => .gint32 (convValue v)) ∧
    enableRejects m = lastPresentConvFails m := by
  rcases m with ⟨times, skip⟩
  cases times with
  | none =>
    cases skip with
    | none => exact ⟨rfl, rfl, rfl⟩
    | some v =>
      simp only [enableNormalizeMode, enableRejects, lastPresentConvFails, convValue, convFails]
      cases h : interfaceToInt32 v <;> simp [enableNormalizeMode, h]
  | some u =>
    cases skip with
    | none =>
      simp only [enableNormalizeMode, enableRejects, lastPresentConvFails, convValue, convFails]
      cases h : interfaceToInt32 u <;> simp [enableNormalizeMode, h]
    | some v =>
      simp only [enableNormalizeMode, enableRejects, lastPresentConvFails, convValue, convFails]
      cases h : interfaceToInt32 u <;> cases h2 : interfaceToInt32 v <;>
        simp [enableNormalizeMode, h, h2]

/-- C3: the TeardownFunc returned by Enable runs a configureFailPoint
command whose ConfigureFailPoint field equals that of the enabled fail
point, whose Mode is the string "off", and whose Data is the zero value. -/
theorem teardownCommand_spec (fp : FailPoint) :
    (teardownCommand fp).configureFailPoint = fp.configureFailPoint ∧
    (teardownCommand fp).mode = .str "off" ∧
    (teardownCommand fp).data = Data.zero := by
  exact ⟨rfl, rfl, rfl⟩

end failpoint

namespace det

/-- The options struct of the det package; only the fields read by
buildConnectionURI and getExposedPorts matter here. -/
structure Options where
  mongoDBVersion : String
  topology : String
  detPath : String
  dockerfile : String
deriving DecidableEq, Repr

/-- buildConnectionURI from the det package. The Go function also receives
a context and a container, but reads neither; it returns a URI and an
always-nil error. -/
def buildConnectionURI (cfg : Options) : String × Option String :=
  if cfg.topology = "replica_set" then
    ("mongodb://localhost:27017,localhost:27018,localhost:27019/?replicaSet=repl0", none)
  else
    ("mongodb://localhost:27017", none)

/-- getExposedPorts from the det package. -/
def getExposedPorts (topology : String) : List String :=
  if topology = "replica_set" then ["27017/tcp", "27018/tcp", "27019/tcp"]
  else if topology = "sharded_cluster" then ["27017/tcp", "27018/tcp"]
  else ["27017/tcp"]

/-- C6: buildConnectionURI returns the three-member replica-set URI exactly
for topology "replica_set", the standalone URI for every other topology
(including "sharded_cluster" and "server"), and a nil error always. -/
theorem buildConnectionURI_spec (cfg : Options) :
    (cfg.topology = "replica_set" →
      buildConnectionURI cfg =
        ("mongodb://localhost:27017,localhost:27018,localhost:27019/?replicaSet=repl0", none)) ∧
    (cfg.topology ≠ "replica_set" →
      buildConnectionURI cfg = ("mongodb://localhost:27017", none)) ∧
    (buildConnectionURI cfg).2 = none := by
  unfold buildConnectionURI
  by_cases h : cfg.topology = "replica_set" <;> simp [h]

/-- An options value with the replica_set topology. -/
def replCfg : Options :=
  { mongoDBVersion := "latest", topology := "replica_set", detPath := "", dockerfile := "" }

/-- An options value with the sharded_cluster topology. -/
def shardCfg : Options :=
  { mongoDBVersion := "latest", topology := "sharded_cluster", detPath := "", dockerfile := "" }

/-- An options value with the server topology. -/
def serverCfg : Options :=
  { mongoDBVersion := "latest", topology := "server", detPath := "", dockerfile := "" }

/-- Witness for C6 at the three concrete topologies. -/
theorem buildConnectionURI_spec_witness :
    replCfg.topology = "replica_set" ∧
    shardCfg.topology ≠ "replica_set" ∧
    serverCfg.topology ≠ "replica_set" ∧
    (buildConnectionURI replCfg).1 =
      "mongodb://localhost:27017,localhost:27018,localhost:27019/?replicaSet=repl0" ∧
    (buildConnectionURI shardCfg).1 = "mongodb://localhost:27017" ∧
    (buildConnectionURI serverCfg).1 = "mongodb://localhost:27017" :=
  ⟨rfl, by decide, by decide,
    congrArg Prod.fst ((buildConnectionURI_spec replCfg).1 rfl),
    congrArg Prod.fst ((buildConnectionURI_spec shardCfg).2.1 (by decide)),
    congrArg Prod.fst ((buildConnectionURI_spec serverCfg).2.1 (by decide))⟩

end det

namespace timeutil

/-- A Go time.Location, identified by its name; only the identity of the
location matters to the model. -/
structure Location where
  name : String
deriving DecidableEq, Repr

/-- The UTC location. -/
def Location.utc : Location := { name := "UTC" }

/-- A Go time.Time, modelled by the absolute instant it denotes (whole
seconds since the Unix epoch, which is all time.Time.Unix exposes) plus
its display location. Unix is location-independent in Go; the location
field exists so that the UTC and In conversions can be stated. -/
structure Time where
  unixSec : Int
  loc : Location
deriving DecidableEq, Repr

/-- time.Time.UTC: same instant, location set to UTC. -/
def Time.UTC (t : Time) : Time := { t with loc := Location.utc }

/-- time.Time.In: same instant, location set to loc. -/
def Time.In (t : Time) (loc : Location) : Time := { t with loc := loc }

/-- time.Time.Unix: seconds since the epoch, ignoring the location. -/
def Time.Unix (t : Time) : Int := t.unixSec

/-- The effect of a Go conversion from int64 to uint32: the low 32 bits,
that is, the value modulo 2 to the 32. -/
def uint32ofInt (n : Int) : Nat :=
  (n % 2 ^ 32).toNat

/-- bson.Timestamp with its uint32 T and I fields. -/
structure Timestamp where
  T : Nat
  I : Nat
deriving DecidableEq, Repr

/-- BSONTimestampFromTime from the timeutil package: convert to UTC, then
take uint32(t.Unix()) as T and the caller-provided increment as I. -/
def BSONTimestampFromTime (t : Time) (i : Nat) : Timestamp :=
  let t := t.UTC
  { T := uint32ofInt t.Unix, I := i }

/-- C8: BSONTimestampFromTime t i equals the timestamp with T the uint32
conversion of t.Unix() and I the increment; the result depends only on the
absolute instant, so changing the location with In does not change it, and
shifting the seconds by any multiple of 2 to the 32 does not change it
(the seconds wrap modulo 2 to the 32). -/
theorem bsonTimestampFromTime_spec (t : Time) (i : Nat) :
    BSONTimestampFromTime t i = { T := uint32ofInt t.Unix, I := i } ∧
    (∀ loc : Location, BSONTimestampFromTime (t.In loc) i = BSONTimestampFromTime t i) ∧
    (∀ k : Int, BSONTimestampFromTime { t with unixSec := t.unixSec + k * 2 ^ 32 } i =
      BSONTimestampFromTime t i) := by
  refine ⟨rfl, fun loc => rfl, fun k => ?_⟩
  simp only [BSONTimestampFromTime, Time.UTC, Time.Unix, uint32ofInt]
  congr 1
  rw [Int.add_mul_emod_self]

end timeutil

namespace mongolocal

/-- The OIDCConfig struct of the mongolocal package (artifacts are an
output field and do not affect the checks in new). -/
structure OIDCConfig where
  dir : String
deriving DecidableEq, Repr

/-- The options struct of the mongolocal package. The mongo client options
are opaque to new except for being set or nil, so they are modelled by
their presence. -/
structure Options where
  mongoClientOpts : Option Unit
  mongoClientOptsV1 : Option Unit
  image : String
  enableTestCommands : Bool
  replSetName : String
  oidcConfig : Option OIDCConfig
deriving DecidableEq, Repr

/-- A functional option of the mongolocal package (Go type Option). -/
def OptionFunc : Type := Options → Options

/-- WithMongoClientOptions from the mongolocal package. -/
def WithMongoClientOptions (clientOpts : Unit) : OptionFunc :=
  fun o => { o with mongoClientOpts := some clientOpts }

/-- WithMongoClientOptionsV1 from the mongolocal package. -/
def WithMongoClientOptionsV1 (clientOpts : Unit) : OptionFunc :=
  fun o => { o with mongoClientOptsV1 := some clientOpts }

/-- WithImage from the mongolocal package. -/
def WithImage (image : String) : OptionFunc :=
  fun o => { o with image := image }

/-- WithEnableTestCommands from the mongolocal package. -/
def WithEnableTestCommands : OptionFunc :=
  fun o => { o with enableTestCommands := true }

/-- WithReplicaSet from the mongolocal package. -/
def WithReplicaSet (replSetName : String) : OptionFunc :=
  fun o => { o with replSetName := replSetName }

/-- WithOIDC from the mongolocal package. -/
def WithOIDC (cfg : OIDCConfig) : OptionFunc :=
  fun o => { o with oidcConfig := some cfg }

/-- The initial options value built at the top of new: only the image is
set; every other field is the Go zero value. -/
def defaultOptions : Options :=
  { mongoClientOpts := none
    mongoClientOptsV1 := none
    image := "mongo:latest"
    enableTestCommands := false
    replSetName := ""
    oidcConfig := none }

/-- The options new computes: apply each functional option in order to the
defaults. -/
def applyOptions (fs : List OptionFunc) : Options :=
  fs.foldl (fun o f => f o) defaultOptions

/-- The boolean asserted by the require.True call in new that carries the
message "OIDC requires using a replica set": it tests
oidcConfig == nil || oidcConfig != nil. -/
def oidcReplicaSetCheck (o : Options) : Bool :=
  decide (o.oidcConfig = none) || decide (o.oidcConfig ≠ none)

/-- Helper: the OIDC replica-set assertion passes on every options value. -/
theorem oidcReplicaSetCheck_true (o : Options) : oidcReplicaSetCheck o = true := by
  cases h : o.oidcConfig <;> simp [oidcReplicaSetCheck, h]

/-- C9: the check intended to enforce "OIDC requires using a replica set"
asserts oidcConfig == nil || oidcConfig != nil, a tautology, so it passes
for every combination of functional options; in particular WithOIDC
without WithReplicaSet yields options with OIDC configured and an empty
replica-set name, and the assertion still passes. -/
theorem oidcReplicaSetCheck_tautology :
    (∀ fs : List OptionFunc, oidcReplicaSetCheck (applyOptions fs) = true) ∧
    (∀ cfg : OIDCConfig,
      (applyOptions [WithOIDC cfg]).oidcConfig = some cfg ∧
      (applyOptions [WithOIDC cfg]).replSetName = "" ∧
      oidcReplicaSetCheck (applyOptions [WithOIDC cfg]) = true) :=
  ⟨fun fs => oidcReplicaSetCheck_true (applyOptions fs),
   fun _ => ⟨rfl, rfl, oidcReplicaSetCheck_true _⟩⟩

end mongolocal

namespace mongoevent

/-- The content of an event.TopologyDescription, opaque to the monitor; a
tag distinguishes distinct descriptions, and tag zero is the Go zero
value. -/
structure TopologyDescription where
  tag : Nat
deriving DecidableEq, Repr

/-- The Go zero value of event.TopologyDescription. -/
def TopologyDescription.zero : TopologyDescription := { tag := 0 }

/-- An event.TopologyDescriptionChangedEvent. -/
structure TopologyDescriptionChangedEvent where
  previousDescription : TopologyDescription
  newDescription : TopologyDescription
deriving DecidableEq, Repr

/-- The state of a mongoevent.ServerMonitor: the latest captured topology
description. -/
structure ServerMonitor where
  latestTopology : TopologyDescription
deriving DecidableEq, Repr

/-- NewServerMontior from the mongoevent package (the zero-valued
monitor; the source keeps the misspelling). -/
def NewServerMontior : ServerMonitor :=
  { latestTopology := TopologyDescription.zero }

/-- The TopologyDescriptionChanged handler installed by
NewEventServerMonitor: store the NewDescription of the event. -/
def topologyDescriptionChanged (sm : ServerMonitor)
    (evt : TopologyDescriptionChangedEvent) : ServerMonitor :=
  { sm with latestTopology := evt.newDescription }

/-- Deliver a sequence of TopologyDescriptionChanged events, in order, to
a fresh monitor. -/
def deliverAll (evts : List TopologyDescriptionChangedEvent) : ServerMonitor :=
  evts.foldl topologyDescriptionChanged NewServerMontior

/-- LatestTopologyDescription from the mongoevent package. -/
def LatestTopologyDescription (sm : ServerMonitor) : TopologyDescription :=
  sm.latestTopology

/-- Helper: folding the handler over a nonempty event list ends at the
NewDescription of the last event, from any starting state. -/
theorem foldl_topologyChanged_latest (evts : List TopologyDescriptionChangedEvent) :
    ∀ (sm : ServerMonitor) (h : evts ≠ []),
      (evts.foldl topologyDescriptionChanged sm).latestTopology =
        (evts.getLast h).newDescription := by
  induction evts with
  | nil => intro sm h; exact absurd rfl h
  | cons e rest ih =>
    intro sm h
    cases rest with
    | nil => rfl
    | cons e2 r2 =>
      rw [List.foldl_cons, List.getLast_cons (by simp)]
      exact ih _ (by simp)

/-- C5: after any sequence of TopologyDescriptionChanged events,
LatestTopologyDescription returns the NewDescription of the most recently
delivered event, and before any event has been delivered it returns the
zero-valued topology description. -/
theorem latestTopologyDescription_spec (evts : List TopologyDescriptionChangedEvent) :
    LatestTopologyDescription (deliverAll []) = TopologyDescription.zero ∧
    ∀ h : evts ≠ [],
      LatestTopologyDescription (deliverAll evts) = (evts.getLast h).newDescription :=
  ⟨rfl, fun h => foldl_topologyChanged_latest evts NewServerMontior h⟩

/-- A first concrete topology change event. -/
def wEvt1 : TopologyDescriptionChangedEvent :=
  { previousDescription := { tag := 0 }, newDescription := { tag := 1 } }

/-- A second concrete topology change event. -/
def wEvt2 : TopologyDescriptionChangedEvent :=
  { previousDescription := { tag := 1 }, newDescription := { tag := 2 } }

/-- Witness for C5 on a concrete two-event delivery. -/
theorem latestTopologyDescription_spec_witness :
    ([wEvt1, wEvt2] : List TopologyDescriptionChangedEvent) ≠ [] ∧
    LatestTopologyDescription (deliverAll [wEvt1, wEvt2]) = { tag := 2 } := by
  refine ⟨by simp, ?_⟩
  have h := (latestTopologyDescription_spec [wEvt1, wEvt2]).2 (by simp)
  simpa [wEvt1, wEvt2] using h

end mongoevent

namespace mongolocal

/-- The literal part of the version regexp mongo followed by an optional
colon, digits, and a dot. -/
def mongoChars : List Char := ['m', 'o', 'n', 'g', 'o']

/-- The maximal leading run of decimal digits, the greedy match of the
digit class in the version regexp. -/
def takeDigits : List Char → List Char
  | [] => []
  | c :: cs => if c.isDigit then c :: takeDigits cs else []

/-- What remains after the maximal leading run of decimal digits. -/
def dropDigits : List Char → List Char
  | [] => []
  | c :: cs => if c.isDigit then dropDigits cs else c :: cs

/-- Match the tail of the version regexp at the current position: one or
more digits followed by a literal dot, returning the captured digits.
Because a dot is not a digit, only the maximal digit run can be followed
by the dot, so greedy matching with backtracking reduces to this. -/
def matchDigitsDot (cs : List Char) : Option (List Char) :=
  let ds := takeDigits cs
  if ds.isEmpty then none
  else
    match dropDigits cs with
    | c :: _ => if c = '.' then some ds else none
    | [] => none

/-- Consume the optional colon of the version regexp. The quantifier
prefers the colon when it is there; when the next character is a colon the
colon-free alternative cannot match anyway (a colon is not a digit), so
the match is committed either way. -/
def skipColon : List Char → List Char
  | c :: r => if c = ':' then r else c :: r
  | [] => []

/-- Match the whole version regexp at the current position, returning the
captured digit group. -/
def matchAt : List Char → Option (List Char)
  | 'm' :: 'o' :: 'n' :: 'g' :: 'o' :: rest => matchDigitsDot (skipColon rest)
  | _ => none

/-- FindStringSubmatch for the version regexp: the capture of the leftmost
match, scanning start positions from the left. -/
def findVersionCapture : List Char → Option (List Char)
  | [] => none
  | c :: cs =>
    match matchAt (c :: cs) with
    | some ds => some ds
    | none => findVersionCapture cs

/-- The numeric value of a digit string. -/
def digitsToNat (ds : List Char) : Nat :=
  ds.foldl (fun acc c => acc * 10 + (c.toNat - '0'.toNat)) 0

/-- strconv.Atoi applied to the captured digit group: on a nonempty string
of decimal digits it fails exactly when the value overflows a 64-bit int. -/
def goAtoi (ds : List Char) : Option Int :=
  if digitsToNat ds < 2 ^ 63 then some (Int.ofNat (digitsToNat ds)) else none

/-- needsCustomWaitStrategy from the mongolocal package: extract the major
version with the regexp; with no match or an Atoi error return false,
otherwise report whether the major version is at most 4. -/
def needsCustomWaitStrategy (image : String) : Bool :=
  match findVersionCapture image.toList with
  | none => false
  | some ds =>
    match goAtoi ds with
    | none => false
    | some majorVersion => decide (majorVersion ≤ 4)

/-- Helper: the digit run and its remainder reassemble the input. -/
theorem takeDigits_append_dropDigits (cs : List Char) :
    takeDigits cs ++ dropDigits cs = cs := by
  induction cs with
  | nil => rfl
  | cons c cs ih =>
    by_cases h : c.isDigit <;> simp [takeDigits, dropDigits, h, ih]

/-- Helper: every character of the digit run is a digit. -/
theorem mem_takeDigits_isDigit (cs : List Char) :
    ∀ c ∈ takeDigits cs, c.isDigit = true := by
  induction cs with
  | nil => intro c h; simp [takeDigits] at h
  | cons d cs ih =>
    intro c h
    by_cases hd : d.isDigit
    · rw [takeDigits, if_pos hd] at h
      rcases List.mem_cons.mp h with rfl | h2
      · exact hd
      · exact ih c h2
    · rw [takeDigits, if_neg hd] at h
      simp at h

/-- Helper: the digit run of an all-digit list followed by a dot is that
list. -/
theorem takeDigits_digits_dot (ds post : List Char)
    (h : ∀ c ∈ ds, c.isDigit = true) :
    takeDigits (ds ++ '.' :: post) = ds := by
  induction ds with
  | nil =>
    show takeDigits ('.' :: post) = []
    rw [takeDigits, if_neg (by decide)]
  | cons d ds ih =>
    have hd : d.isDigit = true := h d (List.mem_cons_self d ds)
    rw [List.cons_append, takeDigits, if_pos hd,
      ih (fun c hc => h c (List.mem_cons_of_mem d hc))]

/-- Helper: dropping the digit run of an all-digit list followed by a dot
leaves the dot and everything after it. -/
theorem dropDigits_digits_dot (ds post : List Char)
    (h : ∀ c ∈ ds, c.isDigit = true) :
    dropDigits (ds ++ '.' :: post) = '.' :: post := by
  induction ds with
  | nil =>
    show dropDigits ('.' :: post) = '.' :: post
    rw [dropDigits, if_neg (by decide)]
  | cons d ds ih =>
    have hd : d.isDigit = true := h d (List.mem_cons_self d ds)
    rw [List.cons_append, dropDigits, if_pos hd,
      ih (fun c hc => h c (List.mem_cons_of_mem d hc))]

/-- Helper: soundness of the digits-dot matcher. -/
theorem matchDigitsDot_sound (cs ds : List Char) (h : matchDigitsDot cs = some ds) :
    ∃ post, cs = ds ++ '.' :: post ∧ ds ≠ [] ∧ ∀ c ∈ ds, c.isDigit = true := by
  unfold matchDigitsDot at h
  by_cases he : (takeDigits cs).isEmpty
  · rw [if_pos he] at h; exact absurd h (by simp)
  · rw [if_neg he] at h
    cases hdrop : dropDigits cs with
    | nil => rw [hdrop] at h; exact absurd h (by simp)
    | cons c rest =>
      rw [hdrop] at h
      have h2 : (if c = '.' then some (takeDigits cs) else none) = some ds := h
      by_cases hc : c = '.'
      · rw [if_pos hc] at h2
        subst hc
        have hds : ds = takeDigits cs := (Option.some.inj h2).symm
        refine ⟨rest, ?_, ?_, ?_⟩
        · rw [hds, ← hdrop, takeDigits_append_dropDigits]
        · rw [hds]; intro hnil; rw [hnil] at he; simp at he
        · rw [hds]; exact mem_takeDigits_isDigit cs
      · rw [if_neg hc] at h2
        exact absurd h2 (by simp)

/-- Helper: completeness of the digits-dot matcher. -/
theorem matchDigitsDot_complete (ds post : List Char)
    (hd : ∀ c ∈ ds, c.isDigit = true) (hne : ds ≠ []) :
    matchDigitsDot (ds ++ '.' :: post) = some ds := by
  have h1 := takeDigits_digits_dot ds post hd
  have h2 := dropDigits_digits_dot ds post hd
  unfold matchDigitsDot
  rw [h1, h2]
  cases ds with
  | nil => exact absurd rfl hne
  | cons d ds2 => simp [List.isEmpty]

/-- Helper: soundness of the single-position matcher — a match decomposes
the position into the mongo literal, an optional colon, the nonempty
captured digits, and a dot. -/
theorem matchAt_sound (cs ds : List Char) (h : matchAt cs = some ds) :
    ∃ colon post, cs = mongoChars ++ (colon ++ (ds ++ '.' :: post)) ∧
      (colon = [] ∨ colon = [':']) ∧ ds ≠ [] ∧ ∀ c ∈ ds, c.isDigit = true := by
  unfold matchAt at h
  split at h
  · rename_i rest
    cases rest with
    | nil => simp [skipColon, matchDigitsDot, takeDigits] at h
    | cons c r =>
      by_cases hc : c = ':'
      · rw [skipColon, if_pos hc] at h
        obtain ⟨post, hr, hne, hdig⟩ := matchDigitsDot_sound r ds h
        subst hc
        exact ⟨[':'], post, by rw [hr]; rfl, Or.inr rfl, hne, hdig⟩
      · rw [skipColon, if_neg hc] at h
        obtain ⟨post, hr, hne, hdig⟩ := matchDigitsDot_sound (c :: r) ds h
        exact ⟨[], post, by rw [← hr]; rfl, Or.inl rfl, hne, hdig⟩
  · exact absurd h (by simp)

/-- Helper: completeness of the single-position matcher. -/
theorem matchAt_complete (colon ds post : List Char)
    (hc : colon = [] ∨ colon = [':']) (hne : ds ≠ [])
    (hd : ∀ c ∈ ds, c.isDigit = true) :
    matchAt (mongoChars ++ (colon ++ (ds ++ '.' :: post))) = some ds := by
  rcases hc with rfl | rfl
  · cases ds with
    | nil => exact absurd rfl hne
    | cons d ds2 =>
      have hdd : d.isDigit = true := hd d (List.mem_cons_self d ds2)
      have hdc : ¬(d = ':') := by
        intro hd2; rw [hd2] at hdd; exact absurd hdd (by decide)
      show matchDigitsDot (skipColon (d :: (ds2 ++ '.' :: post))) = some (d :: ds2)
      rw [skipColon, if_neg hdc]
      exact matchDigitsDot_complete (d :: ds2) post hd hne
  · show matchDigitsDot (skipColon (':' :: (ds ++ '.' :: post))) = some ds
    rw [skipColon, if_pos rfl]
    exact matchDigitsDot_complete ds post hd hne

/-- Helper: soundness of the leftmost scan — a capture comes from a match
at some position. -/
theorem findVersionCapture_sound (cs : List Char) :
    ∀ ds, findVersionCapture cs = some ds →
      ∃ pre tail, cs = pre ++ tail ∧ matchAt tail = some ds := by
  induction cs with
  | nil => intro ds h; simp [findVersionCapture] at h
  | cons c rest ih =>
    intro ds h
    unfold findVersionCapture at h
    cases hm : matchAt (c :: rest) with
    | some ds2 =>
      rw [hm] at h
      have : ds2 = ds := Option.some.inj h
      subst this
      exact ⟨[], c :: rest, rfl, hm⟩
    | none =>
      rw [hm] at h
      obtain ⟨pre, tail, heq, hmt⟩ := ih ds h
      exact ⟨c :: pre, tail, by rw [List.cons_append, heq], hmt⟩

/-- Helper: completeness of the leftmost scan — a match at any position
yields a capture. -/
theorem findVersionCapture_complete (pre tail ds : List Char)
    (h : matchAt tail = some ds) :
    (findVersionCapture (pre ++ tail)).isSome = true := by
  induction pre with
  | nil =>
    cases tail with
    | nil => simp [matchAt] at h
    | cons c r =>
      show (findVersionCapture (c :: r)).isSome = true
      unfold findVersionCapture
      rw [h]
      rfl
  | cons p pre2 ih =>
    show (findVersionCapture (p :: (pre2 ++ tail))).isSome = true
    unfold findVersionCapture
    cases hm : matchAt (p :: (pre2 ++ tail)) with
    | some ds2 => rfl
    | none => exact ih

/-- C7: needsCustomWaitStrategy returns true exactly when the leftmost
match of the version regexp captures major-version digits that
strconv.Atoi parses to an integer at most 4 (so with no match, or with
digits that do not parse, it returns false); and such a capture exists
exactly when the image contains a substring consisting of the mongo
literal, an optional colon, one or more digits, and a dot. -/
theorem needsCustomWaitStrategy_spec (image : String) :
    (needsCustomWaitStrategy image = true ↔
      ∃ ds n, findVersionCapture image.toList = some ds ∧ goAtoi ds = some n ∧ n ≤ 4) ∧
    ((findVersionCapture image.toList).isSome = true ↔
      ∃ pre colon ds post,
        image.toList = pre ++ (mongoChars ++ (colon ++ (ds ++ '.' :: post))) ∧
        (colon = [] ∨ colon = [':']) ∧ ds ≠ [] ∧ ∀ c ∈ ds, c.isDigit = true) := by
  constructor
  · unfold needsCustomWaitStrategy
    cases hf : findVersionCapture image.toList with
    | none => simp
    | some ds =>
      cases ha : goAtoi ds with
      | none => simp [ha]
      | some n => simp [ha]
  · constructor
    · intro h
      cases hf : findVersionCapture image.toList with
      | none => rw [hf] at h; simp at h
      | some ds =>
        obtain ⟨pre, tail, heq, hm⟩ := findVersionCapture_sound image.toList ds hf
        obtain ⟨colon, post, htail, hcol, hne, hdig⟩ := matchAt_sound tail ds hm
        exact ⟨pre, colon, ds, post, by rw [heq, htail], hcol, hne, hdig⟩
    · rintro ⟨pre, colon, ds, post, heq, hcol, hne, hdig⟩
      rw [heq]
      exact findVersionCapture_complete pre _ ds
        (matchAt_complete colon ds post hcol hne hdig)

end mongolocal

namespace monitor

/-- An event.CommandStartedEvent, reduced to the fields the monitor package
reads plus an identifier distinguishing events. -/
structure CommandStartedEvent where
  commandName : String
  requestID : Int
deriving DecidableEq, Repr

/-- An event.CommandSucceededEvent. -/
structure CommandSucceededEvent where
  commandName : String
  requestID : Int
deriving DecidableEq, Repr

/-- An event.CommandFailedEvent. -/
structure CommandFailedEvent where
  commandName : String
  requestID : Int
deriving DecidableEq, Repr

/-- An event.PoolEvent with its string Type field. -/
structure PoolEvent where
  type : String
  address : String
deriving DecidableEq, Repr

/-- The driver constant event.ConnectionCheckedIn. -/
def ConnectionCheckedIn : String := "ConnectionCheckedIn"

/-- The driver constant event.ConnectionCheckedOut. -/
def ConnectionCheckedOut : String := "ConnectionCheckedOut"

/-- The driver constant event.ConnectionClosed. -/
def ConnectionClosed : String := "ConnectionClosed"

/-- The EventType enumeration of the monitor package (an int iota enum in
the source). -/
inductive EventType where
  | commandStarted
  | commandFailed
  | connectionCheckedOut
  | connectionCheckedIn
  | connectionClosed
deriving DecidableEq, Repr

/-- The dynamic payload stored in RecordedEvent.Event (an any in the
source, holding a pointer to one of the three event structs). -/
inductive EventPayload where
  | cse (e : CommandStartedEvent)
  | cfe (e : CommandFailedEvent)
  | pe (e : PoolEvent)
deriving DecidableEq, Repr

/-- RecordedEvent from the monitor package. -/
structure RecordedEvent where
  type : EventType
  event : EventPayload
deriving DecidableEq, Repr

/-- The Started handler installed by New: for each configured command name
equal to the event's command name, append a commandStarted record (one
append per matching entry of cmds, as in the source loop). -/
def startedHandler (cmds : List String) (l : List RecordedEvent)
    (e : CommandStartedEvent) : List RecordedEvent :=
  cmds.foldl
    (fun acc cmd =>
      if e.commandName = cmd then
        acc ++ [{ type := .commandStarted, event := .cse e }]
      else acc)
    l

/-- The Failed handler installed by New. -/
def failedHandler (cmds : List String) (l : List RecordedEvent)
    (e : CommandFailedEvent) : List RecordedEvent :=
  cmds.foldl
    (fun acc cmd =>
      if e.commandName = cmd then
        acc ++ [{ type := .commandFailed, event := .cfe e }]
      else acc)
    l

/-- The pool-event handler installed by New: a switch on the event type
recording checked-in, checked-out and closed events and ignoring all
others. -/
def poolHandler (l : List RecordedEvent) (e : PoolEvent) : List RecordedEvent :=
  if e.type = ConnectionCheckedIn then
    l ++ [{ type := .connectionCheckedIn, event := .pe e }]
  else if e.type = ConnectionCheckedOut then
    l ++ [{ type := .connectionCheckedOut, event := .pe e }]
  else if e.type = ConnectionClosed then
    l ++ [{ type := .connectionClosed, event := .pe e }]
  else l

/-- One handler invocation delivered to the monitor built by New. -/
inductive Invocation where
  | started (e : CommandStartedEvent)
  | succeeded (e : CommandSucceededEvent)
  | failed (e : CommandFailedEvent)
  | pool (e : PoolEvent)
deriving DecidableEq, Repr

/-- Dispatch one invocation to the handlers installed by New; the
Succeeded handler only logs and records nothing. -/
def handleInvocation (cmds : List String) (l : List RecordedEvent) :
    Invocation → List RecordedEvent
  | .started e => startedHandler cmds l e
  | .succeeded _ => l
  | .failed e => failedHandler cmds l e
  | .pool e => poolHandler l e

/-- The allEvents slice contents after a sequence of handler invocations
on a monitor built by New (whose Reset sets allEvents to nil). -/
def runMonitor (cmds : List String) (invs : List Invocation) : List RecordedEvent :=
  invs.foldl (handleInvocation cmds) []

/-- A store of Go slice backing arrays: each allocated slice is an address
holding its element list, and next is the first unused address. -/
structure SliceStore where
  next : Nat
  data : Nat → List RecordedEvent

/-- Read the elements of the slice at an address. -/
def SliceStore.read (st : SliceStore) (id : Nat) : List RecordedEvent :=
  st.data id

/-- Mutate the slice at an address in place. -/
def SliceStore.write (st : SliceStore) (id : Nat) (l : List RecordedEvent) :
    SliceStore :=
  { st with data := fun j => if j = id then l else st.data j }

/-- Allocate a fresh backing array holding the given elements, returning
the new store and the fresh address. -/
def SliceStore.alloc (st : SliceStore) (l : List RecordedEvent) :
    SliceStore × Nat :=
  ({ next := st.next + 1
     data := fun j => if j = st.next then l else st.data j }, st.next)

/-- Monitor.Events: append to a nil slice copies all recorded events into
a freshly allocated backing array and returns it. -/
def monitorEvents (st : SliceStore) (allEventsID : Nat) : SliceStore × Nat :=
  st.alloc (st.read allEventsID)

/-- The accumulating loop shared by the five typed accessors: walk the
recorded events in order, and for each record of the requested type append
the payload of the Go type assertion; a failing assertion panics, modelled
as none. -/
def typedEvents {β : Type} (t : EventType) (extract : EventPayload → Option β) :
    List RecordedEvent → Option (List β)
  | [] => some []
  | e :: rest =>
    if e.type = t then
      match extract e.event with
      | none => none
      | some b => (typedEvents t extract rest).map (fun xs => b :: xs)
    else typedEvents t extract rest

/-- The type assertion to a command started event. -/
def assertCSE : EventPayload → Option CommandStartedEvent
  | .cse e => some e
  | _ => none

/-- The type assertion to a command failed event. -/
def assertCFE : EventPayload → Option CommandFailedEvent
  | .cfe e => some e
  | _ => none

/-- The type assertion to a pool event. -/
def assertPE : EventPayload → Option PoolEvent
  | .pe e => some e
  | _ => none

/-- Monitor.CommandStartedEvents. -/
def commandStartedEvents : List RecordedEvent → Option (List CommandStartedEvent) :=
  typedEvents .commandStarted assertCSE

/-- Monitor.CommandFailedEvents. -/
def commandFailedEvents : List RecordedEvent → Option (List CommandFailedEvent) :=
  typedEvents .commandFailed assertCFE

/-- Monitor.ConnectionCheckedOutEvents. -/
def connectionCheckedOutEvents : List RecordedEvent → Option (List PoolEvent) :=
  typedEvents .connectionCheckedOut assertPE

/-- Monitor.ConnectionCheckedInEvents. -/
def connectionCheckedInEvents : List RecordedEvent → Option (List PoolEvent) :=
  typedEvents .connectionCheckedIn assertPE

/-- Monitor.ConnectionClosedEvents. -/
def connectionClosedEvents : List RecordedEvent → Option (List PoolEvent) :=
  typedEvents .connectionClosed assertPE

/-- A recorded event is well formed when its type tag matches the dynamic
type of its payload, as every record appended by the New handlers does. -/
def wfEvent (e : RecordedEvent) : Bool :=
  match e.type, e.event with
  | .commandStarted, .cse _ => true
  | .commandFailed, .cfe _ => true
  | .connectionCheckedOut, .pe _ => true
  | .connectionCheckedIn, .pe _ => true
  | .connectionClosed, .pe _ => true
  | _, _ => false

end monitor

namespace monitor

/-- Helper: a fold whose step preserves well-formedness of all recorded
events preserves it overall. -/
theorem foldl_wf {α : Type} (f : List RecordedEvent → α → List RecordedEvent)
    (hf : ∀ l a, (∀ e ∈ l, wfEvent e = true) → ∀ e ∈ f l a, wfEvent e = true) :
    ∀ (xs : List α) (l : List RecordedEvent), (∀ e ∈ l, wfEvent e = true) →
      ∀ e ∈ xs.foldl f l, wfEvent e = true := by
  intro xs
  induction xs with
  | nil => intro l hl; exact hl
  | cons x xs ih => intro l hl; exact ih (f l x) (hf l x hl)

/-- Helper: appending a well-formed record preserves well-formedness. -/
theorem append_wf (l : List RecordedEvent) (e0 : RecordedEvent)
    (hl : ∀ e ∈ l, wfEvent e = true) (he : wfEvent e0 = true) :
    ∀ e ∈ l ++ [e0], wfEvent e = true := by
  intro e he2
  rcases List.mem_append.mp he2 with h | h
  · exact hl e h
  · rw [List.mem_singleton.mp h]; exact he

/-- Helper: every record appended by a handler invocation is well formed. -/
theorem handleInvocation_wf (cmds : List String) (l : List RecordedEvent)
    (inv : Invocation) (hl : ∀ e ∈ l, wfEvent e = true) :
    ∀ e ∈ handleInvocation cmds l inv, wfEvent e = true := by
  cases inv with
  | started e0 =>
    refine foldl_wf _ ?_ cmds l hl
    intro l2 cmd hl2
    by_cases h : e0.commandName = cmd
    · simp only [if_pos h]
      exact append_wf l2 _ hl2 rfl
    · simpa only [if_neg h] using hl2
  | succeeded e0 => exact hl
  | failed e0 =>
    refine foldl_wf _ ?_ cmds l hl
    intro l2 cmd hl2
    by_cases h : e0.commandName = cmd
    · simp only [if_pos h]
      exact append_wf l2 _ hl2 rfl
    · simpa only [if_neg h] using hl2
  | pool e0 =>
    show ∀ e ∈ poolHandler l e0, wfEvent e = true
    unfold poolHandler
    by_cases h1 : e0.type = ConnectionCheckedIn
    · simp only [if_pos h1]; exact append_wf l _ hl rfl
    · simp only [if_neg h1]
      by_cases h2 : e0.type = ConnectionCheckedOut
      · simp only [if_pos h2]; exact append_wf l _ hl rfl
      · simp only [if_neg h2]
        by_cases h3 : e0.type = ConnectionClosed
        · simp only [if_pos h3]; exact append_wf l _ hl rfl
        · simpa only [if_neg h3] using hl

/-- Helper: every record in the monitor after any invocation sequence is
well formed. -/
theorem runMonitor_wf (cmds : List String) (invs : List Invocation) :
    ∀ e ∈ runMonitor cmds invs, wfEvent e = true := by
  refine foldl_wf _ ?_ invs [] (by intro e h; simp at h)
  intro l inv hl
  exact handleInvocation_wf cmds l inv hl

/-- Helper: on a list whose records of the requested type all carry a
payload the assertion accepts, the typed accessor succeeds and its output,
re-wrapped, is exactly the subsequence of records of that type, in order. -/
theorem typedEvents_eq {β : Type} (t : EventType) (extract : EventPayload → Option β)
    (wrap : β → EventPayload) (l : List RecordedEvent)
    (H : ∀ e ∈ l, e.type = t → ∃ b, extract e.event = some b ∧ wrap b = e.event) :
    ∃ xs, typedEvents t extract l = some xs ∧
      xs.map (fun b => RecordedEvent.mk t (wrap b)) =
        l.filter (fun e => decide (e.type = t)) := by
  induction l with
  | nil => exact ⟨[], rfl, rfl⟩
  | cons e rest ih =>
    obtain ⟨xs, hxs, hmap⟩ := ih (fun e2 he2 ht => H e2 (List.mem_cons_of_mem e he2) ht)
    by_cases ht : e.type = t
    · obtain ⟨b, hb, hwrap⟩ := H e (List.mem_cons_self e rest) ht
      refine ⟨b :: xs, ?_, ?_⟩
      · rw [typedEvents, if_pos ht, hb, hxs]
        rfl
      · have he : e = RecordedEvent.mk t (wrap b) := by
          cases e with
          | mk t2 p2 =>
            simp only at ht hwrap
            rw [ht, hwrap]
        rw [List.map_cons, List.filter_cons_of_pos (by simpa using ht), hmap, ← he]
    · refine ⟨xs, ?_, ?_⟩
      · rw [typedEvents, if_neg ht, hxs]
      · rw [List.filter_cons_of_neg (by simpa using ht), hmap]

/-- Helper: CommandStartedEvents on any well-formed record list. -/
theorem commandStartedEvents_eq (l : List RecordedEvent)
    (hwf : ∀ e ∈ l, wfEvent e = true) :
    ∃ xs, commandStartedEvents l = some xs ∧
      xs.map (fun b => RecordedEvent.mk .commandStarted (.cse b)) =
        l.filter (fun e => decide (e.type = .commandStarted)) := by
  refine typedEvents_eq _ _ _ l ?_
  intro e he ht
  have hw := hwf e he
  cases e with
  | mk t2 p2 =>
    simp only at ht
    subst ht
    cases p2 with
    | cse b => exact ⟨b, rfl, rfl⟩
    | cfe b => exact absurd hw (by simp [wfEvent])
    | pe b => exact absurd hw (by simp [wfEvent])

/-- Helper: CommandFailedEvents on any well-formed record list. -/
theorem commandFailedEvents_eq (l : List RecordedEvent)
    (hwf : ∀ e ∈ l, wfEvent e = true) :
    ∃ xs, commandFailedEvents l = some xs ∧
      xs.map (fun b => RecordedEvent.mk .commandFailed (.cfe b)) =
        l.filter (fun e => decide (e.type = .commandFailed)) := by
  refine typedEvents_eq _ _ _ l ?_
  intro e he ht
  have hw := hwf e he
  cases e with
  | mk t2 p2 =>
    simp only at ht
    subst ht
    cases p2 with
    | cfe b => exact ⟨b, rfl, rfl⟩
    | cse b => exact absurd hw (by simp [wfEvent])
    | pe b => exact absurd hw (by simp [wfEvent])

/-- Helper: a pool-typed accessor on any well-formed record list, for each
of the three pool event types. -/
theorem poolTypedEvents_eq (t : EventType) (l : List RecordedEvent)
    (hp : t = .connectionCheckedOut ∨ t = .connectionCheckedIn ∨ t = .connectionClosed)
    (hwf : ∀ e ∈ l, wfEvent e = true) :
    ∃ xs, typedEvents t assertPE l = some xs ∧
      xs.map (fun b => RecordedEvent.mk t (.pe b)) =
        l.filter (fun e => decide (e.type = t)) := by
  refine typedEvents_eq _ _ _ l ?_
  intro e he ht
  have hw := hwf e he
  cases e with
  | mk t2 p2 =>
    simp only at ht
    subst ht
    cases p2 with
    | pe b => exact ⟨b, rfl, rfl⟩
    | cse b =>
      rcases hp with rfl | rfl | rfl <;> exact absurd hw (by simp [wfEvent])
    | cfe b =>
      rcases hp with rfl | rfl | rfl <;> exact absurd hw (by simp [wfEvent])

end monitor

namespace monitor

/-- C4: for a monitor built by New after any sequence of handler
invocations, Events copies all recorded events in append order into a
freshly allocated backing array — so the returned slice is not the
monitor's own and mutating it leaves the monitor's state unchanged — and
each typed accessor succeeds and returns exactly the payloads of the
subsequence of Events whose Type matches, in the same order. -/
theorem monitor_events_spec (cmds : List String) (invs : List Invocation)
    (st : SliceStore) (mid : Nat)
    (hlt : mid < st.next) (hdata : st.read mid = runMonitor cmds invs) :
    ((monitorEvents st mid).1.read (monitorEvents st mid).2 = runMonitor cmds invs ∧
     (monitorEvents st mid).2 ≠ mid ∧
     (∀ l, ((monitorEvents st mid).1.write (monitorEvents st mid).2 l).read mid =
        runMonitor cmds invs)) ∧
    (∃ xs, commandStartedEvents (runMonitor cmds invs) = some xs ∧
      xs.map (fun b => RecordedEvent.mk .commandStarted (.cse b)) =
        (runMonitor cmds invs).filter (fun e => decide (e.type = .commandStarted))) ∧
    (∃ xs, commandFailedEvents (runMonitor cmds invs) = some xs ∧
      xs.map (fun b => RecordedEvent.mk .commandFailed (.cfe b)) =
        (runMonitor cmds invs).filter (fun e => decide (e.type = .commandFailed))) ∧
    (∃ xs, connectionCheckedOutEvents (runMonitor cmds invs) = some xs ∧
      xs.map (fun b => RecordedEvent.mk .connectionCheckedOut (.pe b)) =
        (runMonitor cmds invs).filter
          (fun e => decide (e.type = .connectionCheckedOut))) ∧
    (∃ xs, connectionCheckedInEvents (runMonitor cmds invs) = some xs ∧
      xs.map (fun b => RecordedEvent.mk .connectionCheckedIn (.pe b)) =
        (runMonitor cmds invs).filter
          (fun e => decide (e.type = .connectionCheckedIn))) ∧
    (∃ xs, connectionClosedEvents (runMonitor cmds invs) = some xs ∧
      xs.map (fun b => RecordedEvent.mk .connectionClosed (.pe b)) =
        (runMonitor cmds invs).filter
          (fun e => decide (e.type = .connectionClosed))) := by
  have hwf := runMonitor_wf cmds invs
  have hne : st.next ≠ mid := Nat.ne_of_gt hlt
  refine ⟨⟨?_, ?_, ?_⟩, commandStartedEvents_eq _ hwf, commandFailedEvents_eq _ hwf,
    poolTypedEvents_eq _ _ (Or.inl rfl) hwf,
    poolTypedEvents_eq _ _ (Or.inr (Or.inl rfl)) hwf,
    poolTypedEvents_eq _ _ (Or.inr (Or.inr rfl)) hwf⟩
  · simp only [monitorEvents, SliceStore.alloc, SliceStore.read] at hdata ⊢
    simpa using hdata
  · exact hne
  · intro l
    have hmn : ¬(mid = st.next) := fun h => hne h.symm
    simp only [monitorEvents, SliceStore.alloc, SliceStore.read, SliceStore.write]
      at hdata ⊢
    simp only [if_neg hmn]
    exact hdata

/-- The configured command filter of the concrete witness monitor. -/
def wCmds : List String := ["find"]

/-- A concrete invocation sequence: a matching command start, a succeeded
event (not recorded), a checkout, a non-matching command start, a matching
failure, and an ignored pool event. -/
def wInvs : List Invocation :=
  [.started { commandName := "find", requestID := 1 },
   .succeeded { commandName := "find", requestID := 1 },
   .pool { type := "ConnectionCheckedOut", address := "localhost:27017" },
   .started { commandName := "insert", requestID := 2 },
   .failed { commandName := "find", requestID := 3 },
   .pool { type := "ConnectionPoolCleared", address := "localhost:27017" }]

/-- A store holding the witness monitor's record slice at address 0. -/
def wStore : SliceStore :=
  { next := 1, data := fun _ => runMonitor wCmds wInvs }

/-- Witness for C4: the hypotheses hold for the concrete store and
monitor, and mutating the freshly returned slice leaves the monitor's
records unchanged. -/
theorem monitor_events_spec_witness :
    0 < wStore.next ∧ wStore.read 0 = runMonitor wCmds wInvs ∧
    ((monitorEvents wStore 0).1.write (monitorEvents wStore 0).2 []).read 0 =
      runMonitor wCmds wInvs :=
  ⟨Nat.zero_lt_one, rfl,
    (monitor_events_spec wCmds wInvs wStore 0 Nat.zero_lt_one rfl).1.2.2 []⟩

end monitor

namespace goplayground

/-- The clientEntity struct of the unified test-file decoder; the
autoEncryptOpts bson.Raw payload is modelled as its byte list, absent when
nil. -/
structure clientEntity where
  id : String
  autoEncryptOpts : Option (List Nat)
deriving DecidableEq, Repr

/-- The databaseEntity struct of the unified test-file decoder. -/
structure databaseEntity where
  id : String
  client : String
  databaseName : String
deriving DecidableEq, Repr

/-- A Go map modelled as an association list; the decoder only ever
inserts fresh keys, so keys are unique and lookup is order-independent. -/
def lookupKey {α : Type} : List (String × α) → String → Option α
  | [], _ => none
  | (k, v) :: rest, key => if key = k then some v else lookupKey rest key

/-- Go map assignment: replace the binding of the key if present,
otherwise add it. -/
def insertKey {α : Type} : List (String × α) → String → α → List (String × α)
  | [], key, v => [(key, v)]
  | (k, w) :: rest, key, v =>
    if key = k then (k, v) :: rest else (k, w) :: insertKey rest key v

/-- Left-biased combination of two optional values. -/
def orOpt {α : Type} (a b : Option α) : Option α :=
  match a with
  | some v => some v
  | none => b

/-- The Entities struct: the clients and databases maps built by
UnmarshalBSONValue. -/
structure Entities where
  clients : List (String × clientEntity)
  databases : List (String × databaseEntity)
deriving DecidableEq, Repr

/-- The rawEntity one-of wrapper decoded from each createEntities array
element. -/
structure rawEntity where
  client : Option clientEntity
  database : Option databaseEntity
deriving DecidableEq, Repr

/-- One iteration of the loop in Entities.UnmarshalBSONValue: a client
entry must have a nonempty, not-yet-seen id and is added to the clients
map; a database entry likewise for the databases map; an entry with
neither key is an error. -/
def addEntity (e : Entities) (r : rawEntity) : Except String Entities :=
  match r.client with
  | some c =>
    if c.id = "" then .error "client entity missing id"
    else if (lookupKey e.clients c.id).isSome then .error "duplicate client id"
    else .ok { e with clients := insertKey e.clients c.id c }
  | none =>
    match r.database with
    | some d =>
      if d.id = "" then .error "database entity missing id"
      else if (lookupKey e.databases d.id).isSome then .error "duplicate database id"
      else .ok { e with databases := insertKey e.databases d.id d }
    | none => .error "entity must have exactly one top-level key"

/-- The loop of Entities.UnmarshalBSONValue from a given starting state. -/
def buildEntitiesFrom (e : Entities) : List rawEntity → Except String Entities
  | [] => .ok e
  | r :: rest =>
    match addEntity e r with
    | .error msg => .error msg
    | .ok e2 => buildEntitiesFrom e2 rest

/-- Entities.UnmarshalBSONValue applied to a decoded createEntities
array: build the clients and databases maps from empty. -/
def buildEntities (l : List rawEntity) : Except String Entities :=
  buildEntitiesFrom { clients := [], databases := [] } l

/-- The testCase struct. -/
structure testCase where
  entities : Entities
deriving DecidableEq, Repr

/-- The testFile struct after UnmarshalBSON (only Tests is kept). -/
structure testFile where
  tests : List testCase
deriving DecidableEq, Repr

/-- The merge loop body of testFile.UnmarshalBSON: copy the file-level
clients into a fresh map, then the test-level clients over them, the
test-level bindings winning on duplicate ids. -/
def mergeClients (fileClients testClients : List (String × clientEntity)) :
    List (String × clientEntity) :=
  let m1 := fileClients.foldl (fun m kv => insertKey m kv.1 kv.2) []
  testClients.foldl (fun m kv => insertKey m kv.1 kv.2) m1

/-- The merge loop of testFile.UnmarshalBSON over all test cases: each
test keeps its own databases and gets the merged clients map. -/
def mergeFileClients (fileEnts : Entities) (tests : List testCase) : List testCase :=
  tests.map fun tc =>
    { entities :=
        { clients := mergeClients fileEnts.clients tc.entities.clients
          databases := tc.entities.databases } }

/-- Decoding of the tests array: each test's createEntities value decoded
by Entities.UnmarshalBSONValue, failing on the first error. -/
def decodeTests : List (List rawEntity) → Except String (List testCase)
  | [] => .ok []
  | raw :: rest =>
    match buildEntities raw with
    | .error msg => .error msg
    | .ok e =>
      match decodeTests rest with
      | .error msg => .error msg
      | .ok tcs => .ok ({ entities := e } :: tcs)

/-- testFile.UnmarshalBSON: decode the file-level entities and the tests,
then merge the file-level clients into each test case; the file-level
entities themselves are not stored. -/
def unmarshalTestFile (fileRaw : List rawEntity) (testsRaw : List (List rawEntity)) :
    Except String testFile :=
  match buildEntities fileRaw with
  | .error msg => .error msg
  | .ok fileEnts =>
    match decodeTests testsRaw with
    | .error msg => .error msg
    | .ok tcs => .ok { tests := mergeFileClients fileEnts tcs }

end goplayground

namespace goplayground

/-- Helper: orOpt with an empty fallback. -/
theorem orOpt_none {α : Type} (a : Option α) : orOpt a none = a := by
  cases a <;> rfl

/-- Helper: looking up the just-inserted key. -/
theorem lookup_insert_self {α : Type} (m : List (String × α)) (k : String) (v : α) :
    lookupKey (insertKey m k v) k = some v := by
  induction m with
  | nil => simp [insertKey, lookupKey]
  | cons p rest ih =>
    obtain ⟨k0, w⟩ := p
    by_cases h : k = k0
    · rw [insertKey, if_pos h, lookupKey, if_pos h]
    · rw [insertKey, if_neg h, lookupKey, if_neg h]
      exact ih

/-- Helper: insertion does not affect other keys. -/
theorem lookup_insert_ne {α : Type} (m : List (String × α)) (k key : String) (v : α)
    (h : key ≠ k) : lookupKey (insertKey m k v) key = lookupKey m key := by
  induction m with
  | nil => simp [insertKey, lookupKey, h]
  | cons p rest ih =>
    obtain ⟨k0, w⟩ := p
    by_cases h0 : k = k0
    · subst h0
      rw [insertKey, if_pos rfl, lookupKey, if_neg h, lookupKey, if_neg h]
    · rw [insertKey, if_neg h0]
      by_cases h1 : key = k0
      · rw [lookupKey, if_pos h1, lookupKey, if_pos h1]
      · rw [lookupKey, if_neg h1, lookupKey, if_neg h1]
        exact ih

/-- Helper: lookup fails exactly on keys not in the map. -/
theorem lookup_none_iff {α : Type} (m : List (String × α)) (k : String) :
    lookupKey m k = none ↔ k ∉ m.map Prod.fst := by
  induction m with
  | nil => simp [lookupKey]
  | cons p rest ih =>
    obtain ⟨k0, w⟩ := p
    by_cases h : k = k0
    · subst h; simp [lookupKey]
    · simp [lookupKey, if_neg h, ih, h]

/-- Helper: inserting a fresh key appends the binding. -/
theorem insert_fresh {α : Type} (m : List (String × α)) (k : String) (v : α)
    (h : lookupKey m k = none) : insertKey m k v = m ++ [(k, v)] := by
  induction m with
  | nil => rfl
  | cons p rest ih =>
    obtain ⟨k0, w⟩ := p
    rw [lookupKey] at h
    by_cases h0 : k = k0
    · rw [if_pos h0] at h
      exact absurd h (by simp)
    · rw [if_neg h0] at h
      rw [insertKey, if_neg h0, ih h, List.cons_append]

/-- Helper: inserting a fresh key preserves key uniqueness. -/
theorem nodup_insert_fresh {α : Type} (m : List (String × α)) (k : String) (v : α)
    (hnd : (m.map Prod.fst).Nodup) (h : lookupKey m k = none) :
    ((insertKey m k v).map Prod.fst).Nodup := by
  rw [insert_fresh m k v h, List.map_append]
  rw [List.nodup_append]
  refine ⟨hnd, by simp, ?_⟩
  intro a ha
  simp only [List.map_cons, List.map_nil, List.mem_singleton]
  intro hak
  subst hak
  exact absurd ha ((lookup_none_iff m a).mp h)

/-- Helper: looking up after folding the insertions of a unique-keyed list
over a starting map finds the list's binding first, falling back to the
starting map. -/
theorem lookup_foldl_insert {α : Type} (t : List (String × α)) :
    ∀ (hnd : (t.map Prod.fst).Nodup) (m : List (String × α)) (k : String),
      lookupKey (t.foldl (fun m2 kv => insertKey m2 kv.1 kv.2) m) k =
        orOpt (lookupKey t k) (lookupKey m k) := by
  induction t with
  | nil => intro _ m k; rfl
  | cons p t2 ih =>
    intro hnd m k
    obtain ⟨k0, v0⟩ := p
    rw [List.foldl_cons]
    have hnd1 : (k0 :: t2.map Prod.fst).Nodup := by
      rw [List.map_cons] at hnd; exact hnd
    have hnd0 := List.nodup_cons.mp hnd1
    rw [ih hnd0.2]
    by_cases h : k = k0
    · subst h
      have ht2 : lookupKey t2 k = none := (lookup_none_iff t2 k).mpr hnd0.1
      rw [ht2]
      simp [orOpt, lookupKey, lookup_insert_self]
    · rw [lookup_insert_ne m k0 k v0 h]
      rw [show lookupKey ((k0, v0) :: t2) k = lookupKey t2 k from by
        rw [lookupKey, if_neg h]]

/-- Helper: the merged clients map looks up the test-level binding first
and falls back to the file-level one. -/
theorem lookup_mergeClients (f t : List (String × clientEntity))
    (hf : (f.map Prod.fst).Nodup) (ht : (t.map Prod.fst).Nodup) (k : String) :
    lookupKey (mergeClients f t) k = orOpt (lookupKey t k) (lookupKey f k) := by
  show lookupKey (t.foldl (fun m kv => insertKey m kv.1 kv.2)
      (f.foldl (fun m kv => insertKey m kv.1 kv.2) [])) k = _
  rw [lookup_foldl_insert t ht, lookup_foldl_insert f hf]
  rw [show lookupKey ([] : List (String × clientEntity)) k = none from rfl, orOpt_none]

/-- Helper: a successful addEntity step preserves key uniqueness of both
maps. -/
theorem addEntity_nodup (e : Entities) (r : rawEntity) (e2 : Entities)
    (h : addEntity e r = .ok e2)
    (hc : (e.clients.map Prod.fst).Nodup) (hd : (e.databases.map Prod.fst).Nodup) :
    (e2.clients.map Prod.fst).Nodup ∧ (e2.databases.map Prod.fst).Nodup := by
  unfold addEntity at h
  split at h
  · rename_i c hr
    split at h
    · exact absurd h (by simp)
    · split at h
      · exact absurd h (by simp)
      · rename_i h1 h2
        rw [← Except.ok.inj h]
        have hx : lookupKey e.clients c.id = none := by
          cases hx2 : lookupKey e.clients c.id with
          | none => rfl
          | some w => rw [hx2] at h2; simp at h2
        exact ⟨nodup_insert_fresh e.clients c.id c hc hx, hd⟩
  · split at h
    · rename_i d hrd
      split at h
      · exact absurd h (by simp)
      · split at h
        · exact absurd h (by simp)
        · rename_i h1 h2
          rw [← Except.ok.inj h]
          have hx : lookupKey e.databases d.id = none := by
            cases hx2 : lookupKey e.databases d.id with
            | none => rfl
            | some w => rw [hx2] at h2; simp at h2
          exact ⟨hc, nodup_insert_fresh e.databases d.id d hd hx⟩
    · exact absurd h (by simp)

/-- Helper: the UnmarshalBSONValue loop preserves key uniqueness from any
starting state. -/
theorem buildEntitiesFrom_nodup (l : List rawEntity) :
    ∀ (e e2 : Entities), buildEntitiesFrom e l = .ok e2 →
      (e.clients.map Prod.fst).Nodup → (e.databases.map Prod.fst).Nodup →
      (e2.clients.map Prod.fst).Nodup ∧ (e2.databases.map Prod.fst).Nodup := by
  induction l with
  | nil =>
    intro e e2 h hc hd
    rw [buildEntitiesFrom] at h
    rw [← Except.ok.inj h]
    exact ⟨hc, hd⟩
  | cons r rest ih =>
    intro e e2 h hc hd
    rw [buildEntitiesFrom] at h
    cases ha : addEntity e r with
    | error msg => rw [ha] at h; exact absurd h (by simp)
    | ok e1 =>
      rw [ha] at h
      obtain ⟨hc1, hd1⟩ := addEntity_nodup e r e1 ha hc hd
      exact ih e1 e2 h hc1 hd1

/-- Helper: the maps built by Entities.UnmarshalBSONValue have unique
keys. -/
theorem buildEntities_nodup (l : List rawEntity) (e : Entities)
    (h : buildEntities l = .ok e) :
    (e.clients.map Prod.fst).Nodup ∧ (e.databases.map Prod.fst).Nodup :=
  buildEntitiesFrom_nodup l { clients := [], databases := [] } e h (by simp) (by simp)

/-- Helper: a successful decode of the tests array decodes each test's
entities in order. -/
theorem decodeTests_ok (testsRaw : List (List rawEntity)) :
    ∀ (tcs : List testCase), decodeTests testsRaw = .ok tcs →
      tcs.length = testsRaw.length ∧
      ∀ i (h1 : i < testsRaw.length) (h2 : i < tcs.length),
        buildEntities (testsRaw.get ⟨i, h1⟩) = .ok (tcs.get ⟨i, h2⟩).entities := by
  induction testsRaw with
  | nil =>
    intro tcs h
    rw [decodeTests] at h
    rw [← Except.ok.inj h]
    exact ⟨rfl, fun i h1 h2 => absurd h1 (by simp at h1)⟩
  | cons raw rest ih =>
    intro tcs h
    rw [decodeTests] at h
    cases hb : buildEntities raw with
    | error msg => rw [hb] at h; exact absurd h (by simp)
    | ok e =>
      rw [hb] at h
      cases hdec : decodeTests rest with
      | error msg => rw [hdec] at h; exact absurd h (by simp)
      | ok tcs2 =>
        rw [hdec] at h
        obtain ⟨hlen, hidx⟩ := ih tcs2 hdec
        rw [← Except.ok.inj h]
        refine ⟨by simp [hlen], ?_⟩
        intro i h1 h2
        cases i with
        | zero => exact hb
        | succ j =>
          exact hidx j (by simpa using h1) (by simp [hlen]; simpa [hlen] using h1)

/-- C10: for every test file successfully decoded by testFile.UnmarshalBSON,
each test case's client map is the right-biased union of the file-level
clients and that test's own clients — lookup finds the test-level binding
when present and the file-level binding otherwise, so every file-level
client id is present — while each test case keeps exactly its own database
entities, the file-level databases never being merged into any test case. -/
theorem testFile_merge_spec (fileRaw : List rawEntity) (testsRaw : List (List rawEntity))
    (tf : testFile) (h : unmarshalTestFile fileRaw testsRaw = .ok tf) :
    ∃ fileEnts, buildEntities fileRaw = .ok fileEnts ∧
      tf.tests.length = testsRaw.length ∧
      ∀ i (hi : i < tf.tests.length) (hj : i < testsRaw.length),
        ∃ te, buildEntities (testsRaw.get ⟨i, hj⟩) = .ok te ∧
          (∀ k, lookupKey (tf.tests.get ⟨i, hi⟩).entities.clients k =
            orOpt (lookupKey te.clients k) (lookupKey fileEnts.clients k)) ∧
          (∀ k, (lookupKey fileEnts.clients k).isSome = true →
            (lookupKey (tf.tests.get ⟨i, hi⟩).entities.clients k).isSome = true) ∧
          (tf.tests.get ⟨i, hi⟩).entities.databases = te.databases := by
  unfold unmarshalTestFile at h
  cases hf : buildEntities fileRaw with
  | error msg => rw [hf] at h; exact absurd h (by simp)
  | ok fileEnts =>
    rw [hf] at h
    cases hdec : decodeTests testsRaw with
    | error msg => rw [hdec] at h; exact absurd h (by simp)
    | ok tcs =>
      rw [hdec] at h
      have htf : ({ tests := mergeFileClients fileEnts tcs } : testFile) = tf :=
        Except.ok.inj h
      subst htf
      obtain ⟨hlen, hidx⟩ := decodeTests_ok testsRaw tcs hdec
      have hfnd := (buildEntities_nodup fileRaw fileEnts hf).1
      refine ⟨fileEnts, rfl, ?_, ?_⟩
      · simp [mergeFileClients, hlen]
      · intro i hi hj
        have hi2 : i < tcs.length := by
          simpa [mergeFileClients] using hi
        have hbe : buildEntities (testsRaw.get ⟨i, hj⟩) =
            .ok (tcs.get ⟨i, hi2⟩).entities := hidx i hj hi2
        have htnd := (buildEntities_nodup _ _ hbe).1
        have hget : (({ tests := mergeFileClients fileEnts tcs } : testFile)).tests.get
              ⟨i, hi⟩ =
            { entities :=
                { clients := mergeClients fileEnts.clients
                    (tcs.get ⟨i, hi2⟩).entities.clients
                  databases := (tcs.get ⟨i, hi2⟩).entities.databases } } := by
          simp [mergeFileClients, List.get_eq_getElem, List.getElem_map]
        refine ⟨(tcs.get ⟨i, hi2⟩).entities, hbe, ?_, ?_, ?_⟩
        · intro k
          rw [hget]
          exact lookup_mergeClients _ _ hfnd htnd k
        · intro k hk
          rw [hget]
          have hm := lookup_mergeClients fileEnts.clients
            (tcs.get ⟨i, hi2⟩).entities.clients hfnd htnd k
          simp only at hm ⊢
          rw [hm]
          cases hx : lookupKey (tcs.get ⟨i, hi2⟩).entities.clients k with
          | none => simpa [orOpt, hx] using hk
          | some w => simp [orOpt]
        · rw [hget]

/-- A concrete file-level createEntities array: one client "a" with
encryption options and one database. -/
def wFileRaw : List rawEntity :=
  [{ client := some { id := "a", autoEncryptOpts := some [1] }, database := none },
   { client := none,
     database := some { id := "db0", client := "a", databaseName := "filedb" } }]

/-- A concrete tests array with one test overriding client "a", adding
client "b", and defining its own database. -/
def wTestsRaw : List (List rawEntity) :=
  [[{ client := some { id := "a", autoEncryptOpts := none }, database := none },
    { client := some { id := "b", autoEncryptOpts := none }, database := none },
    { client := none,
      database := some { id := "tdb", client := "b", databaseName := "testdb" } }]]

/-- The decoded test file: the test case holds the merged clients with the
test-level "a" winning, and only its own database. -/
def wTf : testFile :=
  { tests :=
      [{ entities :=
          { clients :=
              [("a", { id := "a", autoEncryptOpts := none }),
               ("b", { id := "b", autoEncryptOpts := none })]
            databases :=
              [("tdb", { id := "tdb", client := "b", databaseName := "testdb" })] } }] }

/-- Witness for C10 on the concrete test file. -/
theorem testFile_merge_spec_witness :
    unmarshalTestFile wFileRaw wTestsRaw = .ok wTf ∧
    wTf.tests.length = wTestsRaw.length := by
  refine ⟨rfl, ?_⟩
  obtain ⟨fe, hfe, hlen, hidx⟩ := testFile_merge_spec wFileRaw wTestsRaw wTf rfl
  exact hlen

end goplayground
